import Mathlib

/-!
Verification of the container primitives exercised by
src/source/testsuite/CustomContainerTestSuite.cpp and of the
alignment_up helper defined in
src/source/testsuite/AlignmentTestSuite.cpp.

The headers containers/SparseArray.h and containers/LockBasedQueue.h are
not part of the repository snapshot (only their test suites are), so the
two containers are modelled from the specification (spec.md sections 3
and 4) and from the observable API the tests use; alignment_up is
embedded directly from its source.
-/

namespace containers

/-- Error kind for SparseArray access failures.  The test suite
(CustomContainerTestSuite.cpp line 49) checks that a read-only access to
a never-written slot throws std::out_of_range; per spec section 7 the
range error and the not-initialized error may be unified into a single
kind, and the test pins that unified kind to std::out_of_range.  The
single constructor outOfRange stands for std::out_of_range. -/
inductive SparseError where
  | outOfRange
deriving DecidableEq, Repr

/-- Modelled from the spec: the header containers/SparseArray.h is
missing from src (only its test suite is present).  Data model from spec
section 3: a fixed-length sequence of N slots, each either absent or
holding a value of type T; a slot is present exactly when it is some. -/
structure SparseArray (T : Type) (N : Nat) where
  storage : Fin N → Option T

/-- A freshly constructed SparseArray: every slot absent (spec section
3, lifecycle: the whole array is created with all slots absent). -/
def SparseArray.empty (T : Type) (N : Nat) : SparseArray T N :=
  ⟨fun _ => none⟩

variable {T : Type} {N : Nat}

/-- Modelled from the spec: write through the mutable subscript
(sparseArray[i] = v in the test).  In range, stores v at slot i and
marks it present; out of range, fails with the range error (spec section
4.1: index values outside the range for any operation fail with a range
error). -/
def SparseArray.set (a : SparseArray T N) (i : Nat) (v : T) :
    Except SparseError (SparseArray T N) :=
  if h : i < N then
    Except.ok ⟨fun j => if j = ⟨i, h⟩ then some v else a.storage j⟩
  else
    Except.error SparseError.outOfRange

/-- The state after a set, keeping the previous state when the set
failed (used to chain writes in statements). -/
def SparseArray.setD (a : SparseArray T N) (i : Nat) (v : T) :
    SparseArray T N :=
  match a.set i v with
  | Except.ok b => b
  | Except.error _ => a

/-- Modelled from the spec: the read-only (const) subscript.  In range
and present, returns the stored value; in range and absent, fails (spec
section 4.1: reading an unset slot must never return a default or stale
value); out of range, fails with the range error. -/
def SparseArray.constGet (a : SparseArray T N) (i : Nat) :
    Except SparseError T :=
  if h : i < N then
    match a.storage ⟨i, h⟩ with
    | some v => Except.ok v
    | none => Except.error SparseError.outOfRange
  else
    Except.error SparseError.outOfRange

/-- Modelled from the spec: presence query (spec section 4.1: pure
query, no failure for any index in range; out-of-range indices fail with
the range error like any other operation). -/
def SparseArray.isInitialized (a : SparseArray T N) (i : Nat) :
    Except SparseError Bool :=
  if h : i < N then
    Except.ok (a.storage ⟨i, h⟩).isSome
  else
    Except.error SparseError.outOfRange

/-- Modelled from the spec: size() returns the number of present slots
(spec section 3: count always equals the cardinality of presence). -/
def SparseArray.size (a : SparseArray T N) : Nat :=
  (Finset.univ.filter fun j : Fin N => (a.storage j).isSome = true).card

/-- Perform a sequence of writes, first element first. -/
def SparseArray.applyWrites (a : SparseArray T N) :
    List (Nat × T) → SparseArray T N
  | [] => a
  | (i, v) :: ws => (a.setD i v).applyWrites ws

end containers

namespace containers

lemma SparseArray.setD_of_lt (a : SparseArray T N) {i : Nat} (h : i < N)
    (v : T) :
    a.setD i v = ⟨fun j => if j = ⟨i, h⟩ then some v else a.storage j⟩ := by
  simp [SparseArray.setD, SparseArray.set, h]

lemma SparseArray.setD_of_ge (a : SparseArray T N) {i : Nat} (h : N ≤ i)
    (v : T) : a.setD i v = a := by
  simp [SparseArray.setD, SparseArray.set, Nat.not_lt.mpr h]

lemma SparseArray.setD_storage_ne (a : SparseArray T N) {i : Nat} (v : T)
    (j : Fin N) (hij : (j : Nat) ≠ i) :
    (a.setD i v).storage j = a.storage j := by
  by_cases h : i < N
  · rw [a.setD_of_lt h v]
    simp [Fin.ext_iff, hij]
  · rw [a.setD_of_ge (Nat.not_lt.mp h) v]

lemma SparseArray.setD_storage_self (a : SparseArray T N) {i : Nat}
    (h : i < N) (v : T) :
    (a.setD i v).storage ⟨i, h⟩ = some v := by
  rw [a.setD_of_lt h v]
  simp

lemma SparseArray.applyWrites_storage_isSome (ws : List (Nat × T))
    (a : SparseArray T N) (j : Fin N) :
    (((a.applyWrites ws).storage j).isSome = true) ↔
      ((a.storage j).isSome = true ∨ (j : Nat) ∈ ws.map Prod.fst) := by
  induction ws generalizing a with
  | nil => simp [SparseArray.applyWrites]
  | cons p ws ih =>
    obtain ⟨i, v⟩ := p
    rw [SparseArray.applyWrites, ih]
    by_cases hj : (j : Nat) = i
    · by_cases hN : i < N
      · have hst : (a.setD i v).storage j = some v := by
          have : j = (⟨i, hN⟩ : Fin N) := Fin.ext hj
          rw [this]
          exact a.setD_storage_self hN v
        simp [hst, hj]
      · exact absurd (hj ▸ j.isLt) hN
    · rw [a.setD_storage_ne v j hj]
      simp [hj]

end containers

open containers

/-- Claim C2: for every index i in range and value v, after set(i, v)
the slot reports initialized and a read-only get returns exactly v. -/
theorem sparse_set_then_get (T : Type) (N : Nat) (a : SparseArray T N)
    (i : Nat) (v : T) (hi : i < N) :
    (a.setD i v).isInitialized i = Except.ok true ∧
    (a.setD i v).constGet i = Except.ok v := by
  have hst := a.setD_storage_self hi v
  constructor
  · simp [SparseArray.isInitialized, hi, hst]
  · simp [SparseArray.constGet, hi, hst]

/-- Witness for C2 at a concrete input: index 2 of a 7-slot array, value
12 (the pricing-cache scenario of the test). -/
theorem sparse_set_then_get_witness :
    ((SparseArray.empty Nat 7).setD 2 12).isInitialized 2 = Except.ok true ∧
    ((SparseArray.empty Nat 7).setD 2 12).constGet 2 = Except.ok 12 :=
  sparse_set_then_get Nat 7 (SparseArray.empty Nat 7) 2 12 (by decide)

/-- Claim C7: every operation given an index outside the range fails
with the range error, and that failure is distinguishable from every
successful result. -/
theorem sparse_out_of_range_fails (T : Type) (N : Nat)
    (a : SparseArray T N) (i : Nat) (v : T) (hi : N ≤ i) :
    a.set i v = Except.error SparseError.outOfRange ∧
    a.constGet i = Except.error SparseError.outOfRange ∧
    a.isInitialized i = Except.error SparseError.outOfRange ∧
    (∀ t : T, a.constGet i ≠ Except.ok t) := by
    have h : ¬ i < N := Nat.not_lt.mpr hi
    refine ⟨?_, ?_, ?_, ?_⟩
    · simp [SparseArray.set, h]
    · simp [SparseArray.constGet, h]
    · simp [SparseArray.isInitialized, h]
    · intro t
      simp [SparseArray.constGet, h]

/-- Witness for C7 at a concrete input: index 9 on a 7-slot array. -/
theorem sparse_out_of_range_fails_witness :
    (SparseArray.empty Nat 7).set 9 0 = Except.error SparseError.outOfRange ∧
    (SparseArray.empty Nat 7).constGet 9 = Except.error SparseError.outOfRange ∧
    (SparseArray.empty Nat 7).isInitialized 9 = Except.error SparseError.outOfRange ∧
    (∀ t : Nat, (SparseArray.empty Nat 7).constGet 9 ≠ Except.ok t) :=
  sparse_out_of_range_fails Nat 7 (SparseArray.empty Nat 7) 9 0 (by decide)

/-- Claim C9: the not-initialized failure is the same error kind as the
range failure (std::out_of_range, the single constructor of
SparseError): a read-only access to an in-range never-written slot and
an access out of range both fail with that one kind. -/
theorem sparse_unified_error (T : Type) (N : Nat) (a : SparseArray T N)
    (i j : Nat) (hi : i < N)
    (hnot : a.isInitialized i = Except.ok false) (hj : N ≤ j) :
    a.constGet i = Except.error SparseError.outOfRange ∧
    a.constGet j = Except.error SparseError.outOfRange := by
  constructor
  · have hsome : (a.storage ⟨i, hi⟩).isSome = false := by
      simpa [SparseArray.isInitialized, hi] using hnot
    have hnone : a.storage ⟨i, hi⟩ = none :=
      Option.not_isSome_iff_eq_none.mp (by simp [hsome])
    simp [SparseArray.constGet, hi, hnone]
  · simp [SparseArray.constGet, Nat.not_lt.mpr hj]

/-- Witness for C9 at a concrete input: slot 0 of a fresh 7-slot array
(never written) and the out-of-range index 9 fail with the same kind. -/
theorem sparse_unified_error_witness :
    (SparseArray.empty Nat 7).constGet 0 = Except.error SparseError.outOfRange ∧
    (SparseArray.empty Nat 7).constGet 9 = Except.error SparseError.outOfRange :=
  sparse_unified_error Nat 7 (SparseArray.empty Nat 7) 0 9 (by decide)
    (by rfl) (by decide)

/-- Claim C1: an in-range index never written keeps failing read-only
access with the unified not-initialized error after any sequence of
writes that avoids it; in particular the read never yields a value. -/
theorem sparse_unset_get_fails (T : Type) (N : Nat) (ws : List (Nat × T))
    (i : Nat) (hi : i < N) (hws : ∀ p ∈ ws, p.1 ≠ i) :
    ((SparseArray.empty T N).applyWrites ws).constGet i =
      Except.error SparseError.outOfRange := by
  have hmem : (i : Nat) ∉ ws.map Prod.fst := by
    simp only [List.mem_map]
    rintro ⟨p, hp, hpi⟩
    exact hws p hp hpi
  have hns : ¬ ((((SparseArray.empty T N).applyWrites ws).storage
      ⟨i, hi⟩).isSome = true) := by
    rw [SparseArray.applyWrites_storage_isSome]
    rintro (h | h)
    · simp [SparseArray.empty] at h
    · exact hmem h
  have hnone : ((SparseArray.empty T N).applyWrites ws).storage ⟨i, hi⟩
      = none := Option.not_isSome_iff_eq_none.mp hns
  simp [SparseArray.constGet, hi, hnone]

/-- Witness for C1 at a concrete input: after the single write (2, 12)
on a 7-slot array, index 0 still fails. -/
theorem sparse_unset_get_fails_witness :
    ((SparseArray.empty Nat 7).applyWrites [(2, 12)]).constGet 0 =
      Except.error SparseError.outOfRange :=
  sparse_unset_get_fails Nat 7 [(2, 12)] 0 (by decide) (by decide)

namespace containers

lemma SparseArray.size_empty_applyWrites (ws : List (Nat × T))
    (hws : ∀ p ∈ ws, p.1 < N) :
    ((SparseArray.empty T N).applyWrites ws).size =
      (ws.map Prod.fst).dedup.length := by
  classical
  rw [← List.card_toFinset]
  unfold SparseArray.size
  have hfil : (Finset.univ.filter fun j : Fin N =>
      (((SparseArray.empty T N).applyWrites ws).storage j).isSome = true) =
      (Finset.univ.filter fun j : Fin N => (j : Nat) ∈ ws.map Prod.fst) := by
    apply Finset.filter_congr
    intro j _
    rw [SparseArray.applyWrites_storage_isSome]
    simp [SparseArray.empty]
  rw [hfil]
  apply Finset.card_bij (fun (j : Fin N) _ => (j : Nat))
  · intro a ha
    rw [List.mem_toFinset]
    exact (Finset.mem_filter.mp ha).2
  · intro a _ b _ hab
    exact Fin.ext hab
  · intro b hb
    have hbmem : b ∈ ws.map Prod.fst := List.mem_toFinset.mp hb
    have hbN : b < N := by
      obtain ⟨p, hp, hpb⟩ := List.mem_map.mp hbmem
      exact hpb ▸ hws p hp
    exact ⟨⟨b, hbN⟩, Finset.mem_filter.mpr ⟨Finset.mem_univ _, hbmem⟩, rfl⟩

end containers

/-- Claim C5: writing a slot never marks a distinct in-range slot
initialized; from a fresh array, size() equals the number of distinct
indices written (not the number of writes); and re-writing an
already-present index leaves size() unchanged. -/
theorem sparse_size_distinct (T : Type) (N : Nat) :
    (∀ (a : SparseArray T N) (i j : Nat) (v : T), j < N → i ≠ j →
      (a.setD i v).isInitialized j = a.isInitialized j) ∧
    (∀ ws : List (Nat × T), (∀ p ∈ ws, p.1 < N) →
      ((SparseArray.empty T N).applyWrites ws).size =
        (ws.map Prod.fst).dedup.length) ∧
    (∀ (a : SparseArray T N) (i : Nat) (v : T),
      a.isInitialized i = Except.ok true → (a.setD i v).size = a.size) := by
  refine ⟨?_, ?_, ?_⟩
  · intro a i j v hj hij
    have hst := a.setD_storage_ne v ⟨j, hj⟩ (Ne.symm hij)
    simp [SparseArray.isInitialized, hj, hst]
  · exact fun ws hws => SparseArray.size_empty_applyWrites ws hws
  · intro a i v hinit
    by_cases hNi : i < N
    · have hsome : (a.storage ⟨i, hNi⟩).isSome = true := by
        simpa [SparseArray.isInitialized, hNi] using hinit
      unfold SparseArray.size
      congr 1
      apply Finset.filter_congr
      intro j _
      by_cases hj : j = (⟨i, hNi⟩ : Fin N)
      · subst hj
        rw [a.setD_storage_self hNi v]
        simp [hsome]
      · rw [a.setD_storage_ne v j (fun h => hj (Fin.ext h))]
    · simp [SparseArray.isInitialized, hNi] at hinit

/-- Witness for C5 at concrete inputs: writing slot 2 leaves slot 0
untouched; three writes over the two distinct indices 2 and 4 give
size 2; re-writing slot 2 leaves size unchanged. -/
theorem sparse_size_distinct_witness :
    (((SparseArray.empty Nat 7).setD 2 12).isInitialized 0 =
      (SparseArray.empty Nat 7).isInitialized 0) ∧
    ((SparseArray.empty Nat 7).applyWrites [(2, 12), (2, 13), (4, 1)]).size =
      (([(2, 12), (2, 13), (4, 1)] : List (Nat × Nat)).map Prod.fst).dedup.length ∧
    (((SparseArray.empty Nat 7).setD 2 12).setD 2 99).size =
      ((SparseArray.empty Nat 7).setD 2 12).size :=
  ⟨(sparse_size_distinct Nat 7).1 (SparseArray.empty Nat 7) 2 0 12 (by decide)
      (by decide),
   (sparse_size_distinct Nat 7).2.1 [(2, 12), (2, 13), (4, 1)] (by decide),
   (sparse_size_distinct Nat 7).2.2 ((SparseArray.empty Nat 7).setD 2 12) 2 99
      (by rfl)⟩

namespace containers

/-- Modelled from the spec: the header containers/LockBasedQueue.h is
missing from src (only its test suite is present).  Since every
operation holds the single mutual-exclusion lock for its whole critical
section (spec section 5: all mutations are totally ordered by
acquisition of the guard), the queue is modelled by its state under that
serialization: the ordered sequence of values awaiting consumption,
earliest pushed first (spec section 3). -/
structure LockBasedQueue (T : Type) where
  items : List T
deriving DecidableEq, Repr

/-- A freshly constructed queue: created empty (spec section 3). -/
def LockBasedQueue.emptyQueue (T : Type) : LockBasedQueue T :=
  ⟨[]⟩

variable {T : Type}

/-- Modelled from the spec: push appends the value at the tail (spec
section 4.2); never fails. -/
def LockBasedQueue.push (q : LockBasedQueue T) (v : T) : LockBasedQueue T :=
  ⟨q.items ++ [v]⟩

/-- Modelled from the spec: tryPop returns an empty result on an empty
queue (the designed no-data outcome, not a failure) and otherwise
removes and returns the head value (spec section 4.2).  The C++ method
returns a shared_ptr that is null when the queue was empty; the model
returns the popped value (none for the null pointer) together with the
resulting queue state. -/
def LockBasedQueue.tryPop (q : LockBasedQueue T) :
    Option T × LockBasedQueue T :=
  match q.items with
  | [] => (none, q)
  | x :: xs => (some x, ⟨xs⟩)

/-- Modelled from the spec: empty() reports whether any unpopped item
remains, as a point-in-time snapshot under the lock (spec section
4.2). -/
def LockBasedQueue.empty (q : LockBasedQueue T) : Bool :=
  q.items.isEmpty

/-- One serialized queue operation, as ordered by the lock. -/
inductive QueueOp (T : Type) where
  | push (v : T)
  | tryPop
deriving DecidableEq, Repr

/-- Run a sequence of serialized operations, collecting the result of
every pop in order. -/
def runOps : LockBasedQueue T → List (QueueOp T) →
    LockBasedQueue T × List (Option T)
  | q, [] => (q, [])
  | q, QueueOp.push v :: ops => runOps (q.push v) ops
  | q, QueueOp.tryPop :: ops =>
    ((runOps (q.tryPop).2 ops).1, (q.tryPop).1 :: (runOps (q.tryPop).2 ops).2)

/-- The values pushed by a sequence of operations, earliest first. -/
def pushedValues : List (QueueOp T) → List T
  | [] => []
  | QueueOp.push v :: ops => v :: pushedValues ops
  | QueueOp.tryPop :: ops => pushedValues ops

lemma runOps_popped_append (ops : List (QueueOp T)) (q : LockBasedQueue T) :
    ((runOps q ops).2.filterMap id) ++ (runOps q ops).1.items =
      q.items ++ pushedValues ops := by
  induction ops generalizing q with
  | nil => simp [runOps, pushedValues]
  | cons op ops ih =>
    cases op with
    | push v =>
      rw [runOps, pushedValues, ih]
      simp [LockBasedQueue.push]
    | tryPop =>
      obtain ⟨l⟩ := q
      cases l with
      | nil =>
        rw [runOps, pushedValues]
        simpa [LockBasedQueue.tryPop] using ih ⟨[]⟩
      | cons x xs =>
        rw [runOps, pushedValues]
        simpa [LockBasedQueue.tryPop] using ih ⟨xs⟩

end containers

/-- Claim C3: the queue is FIFO.  Concretely, pushing a then b on an
empty queue and popping twice yields a then b; in general, over the
total order of serialized operations, the successful pops concatenated
with the remaining items equal the pushed values in push order, so each
pop returns the earliest pushed value not yet popped. -/
theorem queue_fifo (T : Type) :
    (∀ a b : T,
      runOps (LockBasedQueue.emptyQueue T)
          [QueueOp.push a, QueueOp.push b, QueueOp.tryPop, QueueOp.tryPop] =
        (LockBasedQueue.emptyQueue T, [some a, some b])) ∧
    (∀ (q : LockBasedQueue T) (ops : List (QueueOp T)),
      ((runOps q ops).2.filterMap id) ++ (runOps q ops).1.items =
        q.items ++ pushedValues ops) :=
  ⟨fun _ _ => rfl, fun q ops => runOps_popped_append ops q⟩

/-- Claim C6: tryPop on an empty queue returns the explicit empty result
and leaves the queue state unchanged; no error is involved. -/
theorem queue_tryPop_empty (T : Type) (q : LockBasedQueue T)
    (h : q.empty = true) : q.tryPop = (none, q) := by
  obtain ⟨l⟩ := q
  cases l with
  | nil => rfl
  | cons x xs => simp [LockBasedQueue.empty] at h

/-- Witness for C6 at a concrete input: the fresh empty queue of
naturals. -/
theorem queue_tryPop_empty_witness :
    (LockBasedQueue.emptyQueue Nat).tryPop =
      (none, LockBasedQueue.emptyQueue Nat) :=
  queue_tryPop_empty Nat (LockBasedQueue.emptyQueue Nat) (by decide)

/-- Claim C8: empty() returns true exactly when no unpopped item remains
at the moment of the call; equivalently, after any serialized run from a
fresh queue, empty() holds exactly when every pushed value has been
popped. -/
theorem queue_empty_iff (T : Type) :
    (∀ q : LockBasedQueue T, q.empty = true ↔ q.items = []) ∧
    (∀ ops : List (QueueOp T),
      ((runOps (LockBasedQueue.emptyQueue T) ops).1.empty = true ↔
        (runOps (LockBasedQueue.emptyQueue T) ops).2.filterMap id =
          pushedValues ops)) := by
  have hbase : ∀ q : LockBasedQueue T, q.empty = true ↔ q.items = [] := by
    intro q
    simp [LockBasedQueue.empty, List.isEmpty_iff]
  refine ⟨hbase, ?_⟩
  intro ops
  have hspec := runOps_popped_append ops (LockBasedQueue.emptyQueue T)
  have hnil : (LockBasedQueue.emptyQueue T).items = [] := rfl
  rw [hnil, List.nil_append] at hspec
  rw [hbase]
  constructor
  · intro h
    rw [h, List.append_nil] at hspec
    exact hspec
  · intro h
    rw [h] at hspec
    have hlen := congrArg List.length hspec
    simp only [List.length_append] at hlen
    exact List.eq_nil_of_length_eq_zero (by omega)

namespace containers

/-- State of one consumer thread engaged in waitAndPop: still suspended
on the condition, or finished having received a value. -/
inductive WaiterState (T : Type) where
  | waiting
  | done (v : T)
deriving DecidableEq, Repr

/-- Modelled from the spec: a queue together with one consumer blocked
in waitAndPop, under the serialization given by the lock (spec section
4.2: the consumer holds the guard at every wake, so each wake and each
push is one atomic step of this system). -/
structure WaitSystem (T : Type) where
  queue : LockBasedQueue T
  waiter : WaiterState T
deriving DecidableEq, Repr

variable {T : Type}

/-- A producer push, performed while the consumer is suspended. -/
def WaitSystem.pushS (s : WaitSystem T) (v : T) : WaitSystem T :=
  ⟨s.queue.push v, s.waiter⟩

/-- Modelled from the spec: one wake of the consumer, spurious or not.
On wake the consumer re-acquires the guard and re-checks the emptiness
predicate before proceeding (spec section 4.2: a wake must never be
trusted without re-validating the condition): if the queue is still
empty it suspends again, leaving the state unchanged; otherwise it
removes and returns the head value. -/
def WaitSystem.wake (s : WaitSystem T) : WaitSystem T :=
  match s.waiter with
  | WaiterState.done _ => s
  | WaiterState.waiting =>
    match s.queue.items with
    | [] => s
    | x :: xs => ⟨⟨xs⟩, WaiterState.done x⟩

end containers

/-- Claim C4: a consumer blocked in waitAndPop on an empty queue remains
suspended under any number of (spurious) wakes, because each wake
re-checks the emptiness predicate; once a push has occurred, the next
wake hands the consumer exactly the pushed value and the queue is empty
immediately afterwards when no further push occurred. -/
theorem queue_waitAndPop_blocking (T : Type) :
    (∀ s : WaitSystem T, s.queue.items = [] →
      ∀ n : Nat, WaitSystem.wake^[n] s = s) ∧
    (∀ (s : WaitSystem T) (v : T), s.queue.items = [] →
      s.waiter = WaiterState.waiting →
      (s.pushS v).wake = ⟨⟨[]⟩, WaiterState.done v⟩) := by
  have hfix : ∀ s : WaitSystem T, s.queue.items = [] →
      WaitSystem.wake s = s := by
    intro s hs
    obtain ⟨⟨l⟩, w⟩ := s
    simp only at hs
    subst hs
    cases w <;> rfl
  constructor
  · intro s hs n
    induction n with
    | zero => rfl
    | succ n ih => rw [Function.iterate_succ_apply', ih, hfix s hs]
  · intro s v hs hw
    obtain ⟨⟨l⟩, w⟩ := s
    simp only at hs hw
    subst hs
    subst hw
    rfl

/-- Witness for C4 at concrete inputs: five spurious wakes leave the
empty-queue waiter suspended; after a push of 7, one wake delivers 7 and
leaves the queue empty (the 300 ms producer scenario of the test). -/
theorem queue_waitAndPop_blocking_witness :
    (WaitSystem.wake^[5]
        (⟨⟨[]⟩, WaiterState.waiting⟩ : WaitSystem Nat) =
      (⟨⟨[]⟩, WaiterState.waiting⟩ : WaitSystem Nat)) ∧
    ((⟨⟨[]⟩, WaiterState.waiting⟩ : WaitSystem Nat).pushS 7).wake =
      ⟨⟨[]⟩, WaiterState.done 7⟩ :=
  ⟨(queue_waitAndPop_blocking Nat).1 ⟨⟨[]⟩, WaiterState.waiting⟩ (by rfl) 5,
   (queue_waitAndPop_blocking Nat).2 ⟨⟨[]⟩, WaiterState.waiting⟩ 7 (by rfl)
      (by rfl)⟩

/-- Width of size_t on the platform the test suite asserts (x64, per
the struct-size static asserts in AlignmentTestSuite.cpp). -/
def size_t_width : Nat := 64

/-- Embedding of alignment_up from
src/source/testsuite/AlignmentTestSuite.cpp lines 15-20.  The C++ body
is n + ( Alignment - 1 ) & ~( Alignment - 1 ); since + binds tighter
than &, this is (n + (Alignment - 1)) & ~(Alignment - 1), computed in
size_t arithmetic: the sum wraps modulo 2 ^ 64, and bitwise NOT of x on
64 bits is (2 ^ 64 - 1) XOR x. -/
def alignment_up (Alignment n : Nat) : Nat :=
  ((n + (Alignment - 1)) % 2 ^ size_t_width) &&&
    ((2 ^ size_t_width - 1) ^^^ (Alignment - 1))

lemma land_not_two_pow_sub_one {k : Nat} (hk : k ≤ 64) {x : Nat}
    (hx : x < 2 ^ 64) :
    x &&& ((2 ^ 64 - 1) ^^^ (2 ^ k - 1)) = x / 2 ^ k * 2 ^ k := by
  apply Nat.eq_of_testBit_eq
  intro i
  rw [Nat.testBit_land, Nat.testBit_xor, Nat.testBit_two_pow_sub_one,
    Nat.testBit_two_pow_sub_one, Nat.mul_comm, Nat.testBit_mul_pow_two,
    ← Nat.shiftRight_eq_div_pow, Nat.testBit_shiftRight]
  by_cases h1 : i < k
  · simp [h1, Nat.lt_of_lt_of_le h1 hk, Nat.not_le.mpr h1]
  · by_cases h2 : i < 64
    · have hki : k + (i - k) = i := by omega
      simp [h1, h2, Nat.not_lt.mp h1, hki]
    · have hbit : x.testBit i = false :=
        Nat.testBit_eq_false_of_lt
          (lt_of_lt_of_le hx (Nat.pow_le_pow_right (by norm_num) (by omega)))
      have hbit2 : x.testBit (k + (i - k)) = false := by
        rwa [show k + (i - k) = i by omega]
      simp [h2, hbit, hbit2]

/-- Claim C10: for a power-of-two Alignment (a size_t value, so
2 ^ k with k at most 63) and any n whose sum with Alignment - 1 does not
overflow size_t, alignment_up returns the least multiple of Alignment
greater than or equal to n; in particular the result is divisible by
Alignment. -/
theorem alignment_up_correct (k n : Nat) (hk : k ≤ 63)
    (hn : n + 2 ^ k - 1 < 2 ^ 64) :
    alignment_up (2 ^ k) n % 2 ^ k = 0 ∧
    n ≤ alignment_up (2 ^ k) n ∧
    alignment_up (2 ^ k) n < n + 2 ^ k ∧
    (∀ m, 2 ^ k ∣ m → n ≤ m → alignment_up (2 ^ k) n ≤ m) := by
  have hA0 : 0 < 2 ^ k := Nat.pos_pow_of_pos k (by norm_num)
  have hsum : n + (2 ^ k - 1) = n + 2 ^ k - 1 := by omega
  have hkey : alignment_up (2 ^ k) n =
      (n + 2 ^ k - 1) / 2 ^ k * 2 ^ k := by
    unfold alignment_up size_t_width
    rw [hsum, Nat.mod_eq_of_lt hn]
    exact land_not_two_pow_sub_one (by omega) hn
  rw [hkey]
  have h1 : 2 ^ k * ((n + 2 ^ k - 1) / 2 ^ k) + (n + 2 ^ k - 1) % 2 ^ k =
      n + 2 ^ k - 1 := Nat.div_add_mod (n + 2 ^ k - 1) (2 ^ k)
  have h2 : (n + 2 ^ k - 1) % 2 ^ k < 2 ^ k :=
    Nat.mod_lt _ hA0
  refine ⟨Nat.mul_mod_left _ _, ?_, ?_, ?_⟩
  · have h3 : n + (n + 2 ^ k - 1) % 2 ^ k ≤ n + 2 ^ k - 1 := by omega
    nth_rewrite 2 [← h1] at h3
    have h4 := Nat.le_of_add_le_add_right h3
    rwa [Nat.mul_comm] at h4
  · have h5 : (n + 2 ^ k - 1) / 2 ^ k * 2 ^ k ≤ n + 2 ^ k - 1 :=
      Nat.div_mul_le_self _ _
    have h6 : n + 2 ^ k - 1 < n + 2 ^ k := by omega
    exact lt_of_le_of_lt h5 h6
  · rintro m ⟨t, ht⟩ hnm
    have h7 : n + 2 ^ k - 1 < m + 2 ^ k := by omega
    rw [ht] at h7
    have h8 : n + 2 ^ k - 1 < (t + 1) * 2 ^ k := by
      rw [Nat.add_mul, Nat.one_mul, Nat.mul_comm t (2 ^ k)]
      exact h7
    have h9 : (n + 2 ^ k - 1) / 2 ^ k < t + 1 :=
      (Nat.div_lt_iff_lt_mul hA0).mpr h8
    have h10 : (n + 2 ^ k - 1) / 2 ^ k ≤ t := Nat.lt_succ_iff.mp h9
    calc (n + 2 ^ k - 1) / 2 ^ k * 2 ^ k ≤ t * 2 ^ k :=
          Nat.mul_le_mul_right _ h10
      _ = 2 ^ k * t := Nat.mul_comm _ _
      _ = m := ht.symm

/-- Witness for C10 at a concrete input: alignment 8 (2 ^ 3) and
n = 13, for which the least multiple is 16. -/
theorem alignment_up_correct_witness :
    alignment_up (2 ^ 3) 13 % 2 ^ 3 = 0 ∧
    13 ≤ alignment_up (2 ^ 3) 13 ∧
    alignment_up (2 ^ 3) 13 < 13 + 2 ^ 3 ∧
    (∀ m, 2 ^ 3 ∣ m → 13 ≤ m → alignment_up (2 ^ 3) 13 ≤ m) :=
  alignment_up_correct 3 13 (by decide) (by norm_num)
